import Mathlib

/-!
Verification development for the shitty-dns-proxy repository.

The Go sources (main.go, upstream.go) are shallowly embedded below.  Pure
functions become Lean functions; the mutable proxy state (the CNAME cache) is
threaded explicitly; the wall clock is an explicit `now : Nat` parameter
(nanoseconds, as Go's `time.Time`/`time.Duration` use); the upstream server is
an oracle function stored in the proxy; and every upstream `Exchange` call is
recorded in an explicit log so that "the upstream was (not) invoked" can be
stated.  The DNS wire codec (`dns.Msg.Pack`, `dns.NewRR`) and Go stdlib
functions (`net.ParseIP`, `base64`) are external to the repository: record
construction is modelled as plain structure construction, packing as an
abstract byte-list input, and `net.ParseIP` as a parameter (with a concrete
IPv4 instance used by witnesses).
-/

namespace SDP

/-- Association-list lookup: the model of reading a Go map. -/
def assocFind {α β : Type} [DecidableEq α] : List (α × β) → α → Option β
  | [], _ => none
  | (k, v) :: rest, key => if k = key then some v else assocFind rest key

/-- Association-list update: the model of a Go map assignment `m[k] = v`. -/
def assocSet {α β : Type} [DecidableEq α] : List (α × β) → α → β → List (α × β)
  | [], k, v => [(k, v)]
  | (k0, v0) :: rest, k, v =>
    if k0 = k then (k, v) :: rest else (k0, v0) :: assocSet rest k v

theorem assocFind_assocSet {α β : Type} [DecidableEq α] (l : List (α × β)) (k k' : α) (v : β) :
    assocFind (assocSet l k v) k' = if k = k' then some v else assocFind l k' := by
  induction l with
  | nil => simp [assocSet, assocFind]
  | cons hd tl ih =>
    obtain ⟨k0, v0⟩ := hd
    by_cases h0 : k0 = k
    · subst h0
      by_cases h1 : k0 = k'
      · subst h1; simp [assocSet, assocFind]
      · simp [assocSet, assocFind, h1]
    · by_cases h1 : k0 = k'
      · subst h1
        have : ¬ k = k0 := fun h => h0 h.symm
        simp [assocSet, assocFind, h0, this, ih]
      · simp [assocSet, assocFind, h0, h1, ih]

/-- `net.IP`.  Go stores IPv4 addresses as the last four bytes of a 16-byte
slice; `v4 a b c d` stands for that slice (bytes 12..15 being a,b,c,d), and
`v6 bytes` for a 16-byte slice that is not an IPv4 address. -/
inductive IP where
  | v4 (a b c d : Nat)
  | v6 (bytes : List Nat)
  deriving DecidableEq, Repr

/-- `net.IP.To4`: non-nil exactly on IPv4 addresses. -/
def IP.to4 : IP → Option IP
  | .v4 a b c d => some (.v4 a b c d)
  | .v6 _ => none

/-- `HostInfo` from main.go: `IP net.IP; CName string`; a nil IP is `none`,
an unset CName is `""`. -/
structure HostInfo where
  ip : Option IP
  cname : String
  deriving DecidableEq, Repr

def HostInfo.IsIP (h : HostInfo) : Bool := h.ip.isSome

def HostInfo.IsCName (h : HostInfo) : Bool := !(h.cname == "")

-- DNS constants from the miekg/dns package.
abbrev typeA : Nat := 1
abbrev typeAAAA : Nat := 28
abbrev typePTR : Nat := 12
abbrev opcodeQuery : Nat := 0
abbrev rcodeSuccess : Nat := 0
abbrev rcodeServerFailure : Nat := 2
abbrev rcodeNameError : Nat := 3

/-- Resource-record payload.  `dns.NewRR` (external codec) is modelled as
direct construction of the record from the already-parsed pieces. -/
inductive RData where
  | a (ip : IP)
  | aaaa (ip : IP)
  | ptr (target : String)
  | other (tag : Nat)
  deriving DecidableEq, Repr

/-- A resource record: owner name, type, TTL and data (`dns.RR`). -/
structure RR where
  name : String
  rrtype : Nat
  ttl : Nat
  rdata : RData
  deriving DecidableEq, Repr

structure Question where
  name : String
  qtype : Nat
  qclass : Nat
  deriving DecidableEq, Repr

/-- The fields of `dns.Msg` that the proxy reads or writes. -/
structure DnsMsg where
  id : Nat
  response : Bool
  opcode : Nat
  rcode : Nat
  recursionDesired : Bool
  recursionAvailable : Bool
  checkingDisabled : Bool
  compress : Bool
  question : List Question
  answer : List RR
  deriving DecidableEq, Repr

/-- `new(dns.Msg)`: zero value. -/
def newMsg : DnsMsg :=
  { id := 0, response := false, opcode := 0, rcode := 0,
    recursionDesired := false, recursionAvailable := false,
    checkingDisabled := false, compress := false, question := [], answer := [] }

/-- `dns.Msg.SetReply`: copy id and opcode, mark as response, reset rcode,
copy recursion-desired/checking-disabled for query opcode, and keep only the
first question of the request. -/
def setReply (m r : DnsMsg) : DnsMsg :=
  let m1 := { m with id := r.id, response := true, opcode := r.opcode, rcode := rcodeSuccess }
  let m2 :=
    if r.opcode = opcodeQuery then
      { m1 with recursionDesired := r.recursionDesired, checkingDisabled := r.checkingDisabled }
    else m1
  match r.question with
  | [] => m2
  | q :: _ => { m2 with question := [q] }

/-- `dns.Msg.SetRcode`: `SetReply` then set the rcode. -/
def setRcode (m r : DnsMsg) (rcode : Nat) : DnsMsg :=
  { setReply m r with rcode := rcode }

/-- `dns.Msg.SetQuestion`: a fresh random id (modelled as 0 — no claim touches
message ids), recursion desired, and a single INET-class question. -/
def setQuestionMsg (m : DnsMsg) (name : String) (qtype : Nat) : DnsMsg :=
  { m with id := 0, recursionDesired := true, question := [⟨name, qtype, 1⟩] }

/-- The reply skeleton built at the top of `respondToRequest` and in
`handleDnsRequest`'s error path: `SetReply`, `Compress = false`,
`RecursionAvailable = true`. -/
def initReply (r : DnsMsg) : DnsMsg :=
  { setReply newMsg r with compress := false, recursionAvailable := true }

/-- `cacheEntry` from main.go: answers plus fetch time (nanoseconds). -/
structure cacheEntry where
  rrs : List RR
  time : Nat
  deriving DecidableEq, Repr

/-- `map[uint16]map[string]cacheEntry`. -/
abbrev Cache : Type := List (Nat × List (String × cacheEntry))

/-- The CNAME cache as `main` initializes it: empty buckets for A and AAAA. -/
def initCnameCache : Cache := [(typeA, []), (typeAAAA, [])]

/-- `p.cnameCache[recordType][cname] = e` (the outer bucket is known to
exist on the path that performs the write). -/
def cacheStore (c : Cache) (recordType : Nat) (cname : String) (e : cacheEntry) : Cache :=
  match assocFind c recordType with
  | some inner => assocSet c recordType (assocSet inner cname e)
  | none => c

/-- The freshness test of `queryCName`: a hit is returned only while
`time.Since(cached.time) < time.Duration(p.localTTL)*time.Second`. -/
def freshRRs (inner : List (String × cacheEntry)) (cname : String) (now ttl : Nat) :
    Option (List RR) :=
  match assocFind inner cname with
  | some cached => if now - cached.time < ttl * 1000000000 then some cached.rrs else none
  | none => none

/-- `net.Addr` as the proxy accepts it (`*net.UDPAddr` / `*net.TCPAddr`). -/
inductive NetAddr where
  | udp (ip : IP) (port : Nat)
  | tcp (ip : IP) (port : Nat)
  deriving DecidableEq, Repr

/-- `getForwardedFor` from main.go. -/
def getForwardedFor : NetAddr → IP
  | .udp ip _ => ip
  | .tcp ip _ => ip

/-- The record of upstream `Exchange` invocations (message and forwarded-for
address), used to state that the upstream was or was not contacted. -/
abbrev Log : Type := List (DnsMsg × IP)

inductive DnsError where
  | unsupportedRecordType (t : Nat)
  | upstreamFailure
  | outOfFuel
  deriving DecidableEq, Repr

/-- `dnsProxy` from main.go.  The upstream is an oracle returning `none` on
failure; `verbose` and the timeout only affect logging/transport and carry no
resolver semantics. -/
structure dnsProxy where
  upstream : DnsMsg → IP → Option DnsMsg
  records : List (String × List HostInfo)
  ptrRecords : List (String × String)
  localTTL : Nat
  verbose : Bool

/-- `p.records[q.Name]`: a missing key reads as the empty list. -/
def recordsFor (p : dnsProxy) (name : String) : List HostInfo :=
  (assocFind p.records name).getD []

instance {ε α : Type} [DecidableEq ε] [DecidableEq α] : DecidableEq (Except ε α) := fun x y =>
  match x, y with
  | .ok a, .ok b =>
    if h : a = b then .isTrue (by rw [h]) else .isFalse (by intro hc; cases hc; exact h rfl)
  | .error a, .error b =>
    if h : a = b then .isTrue (by rw [h]) else .isFalse (by intro hc; cases hc; exact h rfl)
  | .ok _, .error _ => .isFalse (by intro hc; cases hc)
  | .error _, .ok _ => .isFalse (by intro hc; cases hc)

structure RespondResult where
  res : Except DnsError DnsMsg
  cache : Cache
  log : Log
  deriving DecidableEq

structure QueryResult where
  res : Except DnsError (List RR)
  cache : Cache
  log : Log
  deriving DecidableEq

structure EntriesResult where
  answers : List RR
  found : Bool
  cache : Cache
  log : Log
  deriving DecidableEq

structure LocalResult where
  msg : DnsMsg
  found : Bool
  cache : Cache
  log : Log
  deriving DecidableEq

mutual

/-- `dnsProxy.respondToRequest`.  `fuel` bounds the alias-chain recursion
depth (the Go code recurses unboundedly on cyclic chains); running out of
fuel is reported as a distinguished error. -/
def respondToRequest (fuel : Nat) (p : dnsProxy) (cache : Cache) (now : Nat)
    (r : DnsMsg) (addr : NetAddr) : RespondResult :=
  match fuel with
  | 0 => ⟨.error .outOfFuel, cache, []⟩
  | fuel' + 1 =>
    let m := initReply r
    if r.opcode = opcodeQuery then
      let lr := addLocalResponses fuel' p cache now m addr
      if lr.found = false then
        if r.recursionDesired then
          let ff := getForwardedFor addr
          match p.upstream r ff with
          | some resp => ⟨.ok resp, lr.cache, lr.log ++ [(r, ff)]⟩
          | none => ⟨.error .upstreamFailure, lr.cache, lr.log ++ [(r, ff)]⟩
        else ⟨.ok (setRcode lr.msg r rcodeNameError), lr.cache, lr.log⟩
      else ⟨.ok (setRcode lr.msg r rcodeSuccess), lr.cache, lr.log⟩
    else ⟨.ok m, cache, []⟩
termination_by (fuel, 0, 0)

/-- `dnsProxy.addLocalResponses`: process the message's questions, appending
answers to it and reporting whether anything was locally handled. -/
def addLocalResponses (fuel : Nat) (p : dnsProxy) (cache : Cache) (now : Nat)
    (m : DnsMsg) (addr : NetAddr) : LocalResult :=
  let qr := processQuestions fuel p cache now m.question m.answer false addr
  ⟨{ m with answer := qr.answers }, qr.found, qr.cache, qr.log⟩
termination_by (fuel, 3, 0)

/-- The `for _, q := range m.Question` loop of `addLocalResponses`. -/
def processQuestions (fuel : Nat) (p : dnsProxy) (cache : Cache) (now : Nat)
    (qs : List Question) (answers : List RR) (found : Bool) (addr : NetAddr) :
    EntriesResult :=
  match qs with
  | [] => ⟨answers, found, cache, []⟩
  | q :: rest =>
    if q.qtype = typeA ∨ q.qtype = typeAAAA then
      let er := processEntries fuel p cache now q (recordsFor p q.name) answers found addr
      let qr := processQuestions fuel p er.cache now rest er.answers er.found addr
      ⟨qr.answers, qr.found, qr.cache, er.log ++ qr.log⟩
    else if q.qtype = typePTR then
      match assocFind p.ptrRecords q.name with
      | none => processQuestions fuel p cache now rest answers found addr
      | some ptr =>
        let rr : RR := ⟨q.name, typePTR, p.localTTL, .ptr ptr⟩
        processQuestions fuel p cache now rest (answers ++ [rr]) true addr
    else processQuestions fuel p cache now rest answers found addr
termination_by (fuel, 2, qs.length)

/-- The `for _, record := range records` loop of `addLocalResponses` for an
A/AAAA question.  Note the alias branch appends the fetched records and then
rewrites the owner name of *every* record accumulated so far. -/
def processEntries (fuel : Nat) (p : dnsProxy) (cache : Cache) (now : Nat)
    (q : Question) (entries : List HostInfo) (answers : List RR) (found : Bool)
    (addr : NetAddr) : EntriesResult :=
  match entries with
  | [] => ⟨answers, found, cache, []⟩
  | record :: rest =>
    if record.IsIP then
      match record.ip with
      | none => processEntries fuel p cache now q rest answers found addr
      | some ip =>
        if q.qtype = typeAAAA then
          match ip.to4 with
          | some _ =>
            -- Skip IPv4 addresses for AAAA queries, but prevent asking upstream.
            processEntries fuel p cache now q rest answers true addr
          | none =>
            let rr : RR := ⟨q.name, typeAAAA, p.localTTL, .aaaa ip⟩
            processEntries fuel p cache now q rest (answers ++ [rr]) true addr
        else
          match ip.to4 with
          | none => processEntries fuel p cache now q rest answers true addr
          | some ip4 =>
            let rr : RR := ⟨q.name, q.qtype, p.localTTL, .a ip4⟩
            processEntries fuel p cache now q rest (answers ++ [rr]) true addr
    else
      let qc := queryCName fuel p cache now record.cname q.qtype addr
      match qc.res with
      | .error _ =>
        let r2 := processEntries fuel p qc.cache now q rest answers found addr
        ⟨r2.answers, r2.found, r2.cache, qc.log ++ r2.log⟩
      | .ok rrs =>
        let answers2 := (answers ++ rrs).map (fun rr => { rr with name := q.name })
        let r2 := processEntries fuel p qc.cache now q rest answers2 true addr
        ⟨r2.answers, r2.found, r2.cache, qc.log ++ r2.log⟩
termination_by (fuel, 1, entries.length)

/-- `dnsProxy.queryCName`: cached alias resolution through the full
resolver. -/
def queryCName (fuel : Nat) (p : dnsProxy) (cache : Cache) (now : Nat)
    (cname : String) (recordType : Nat) (addr : NetAddr) : QueryResult :=
  match assocFind cache recordType with
  | none => ⟨.error (.unsupportedRecordType recordType), cache, []⟩
  | some inner =>
    match freshRRs inner cname now p.localTTL with
    | some rrs => ⟨.ok rrs, cache, []⟩
    | none =>
      let req := setQuestionMsg newMsg cname recordType
      let rr := respondToRequest fuel p cache now req addr
      match rr.res with
      | .error e => ⟨.error e, rr.cache, rr.log⟩
      | .ok resp =>
        ⟨.ok resp.answer, cacheStore rr.cache recordType cname ⟨resp.answer, now⟩, rr.log⟩
termination_by (fuel, 0, 1)

end

/-- `dnsProxy.handleDnsRequest` as the message it writes back: on an error
from the resolver a fresh local reply with the server-failure rcode. -/
def handleDnsRequest (fuel : Nat) (p : dnsProxy) (cache : Cache) (now : Nat)
    (r : DnsMsg) (addr : NetAddr) : DnsMsg × Cache × Log :=
  let rr := respondToRequest fuel p cache now r addr
  match rr.res with
  | .ok resp => (resp, rr.cache, rr.log)
  | .error _ => (setRcode (initReply r) r rcodeServerFailure, rr.cache, rr.log)

/-! ## Hosts-file parsing (`parseHostsScanner`) -/

/-- The record store that `parseHostsScanner` builds and `main` merges. -/
abbrev Store : Type := List (String × List HostInfo)

/-- `line[:strings.Index(line, "#")]` (the whole line when no `#` occurs). -/
def dropComment (line : String) : String :=
  String.mk (line.toList.takeWhile (fun c => c ≠ '#'))

/-- `strings.HasPrefix(line, c)` for a single-character prefix. -/
def startsWithChar (s : String) (c : Char) : Bool :=
  match s.toList with
  | c0 :: _ => c0 = c
  | [] => false

def splitFieldsAux : List Char → List Char → List String
  | [], acc => if acc = [] then [] else [String.mk acc.reverse]
  | c :: rest, acc =>
    if c = ' ' ∨ c = '\t' then
      (if acc = [] then [] else [String.mk acc.reverse]) ++ splitFieldsAux rest []
    else splitFieldsAux rest (c :: acc)

/-- `strings.Fields`: maximal runs of non-whitespace characters (the scanner
yields single lines, so space and tab are the relevant separators). -/
def goFields (line : String) : List String :=
  splitFieldsAux line.toList []

/-- The `HostInfo` built from the first field of a hosts line: an `@`-prefixed
alias target, or a literal address accepted by `parseIP` (`net.ParseIP`, a Go
stdlib function external to this repository, passed as a parameter). -/
def destHostInfo (parseIP : String → Option IP) (destField : String) : Option HostInfo :=
  match destField.toList with
  | '@' :: rest => some ⟨none, String.mk rest ++ "."⟩
  | _ =>
    match parseIP destField with
    | none => none
    | some ip => some ⟨some ip, ""⟩

/-- One iteration of the scanner loop in `parseHostsScanner`. -/
def parseHostsLine (parseIP : String → Option IP) (records : Store) (line : String) : Store :=
  if line = "" ∨ startsWithChar line '#' then records
  else
    let line2 := dropComment line
    match goFields line2 with
    | [] => records
    | [_] => records
    | destField :: hosts =>
      match destHostInfo parseIP destField with
      | none => records
      | some hostInfo =>
        hosts.foldl
          (fun recs host =>
            assocSet recs (host ++ ".") ((assocFind recs (host ++ ".")).getD [] ++ [hostInfo]))
          records

/-- `parseHostsScanner`: fold the per-line step over the scanner's lines,
starting from an empty store. -/
def parseHostsScanner (parseIP : String → Option IP) (lines : List String) : Store :=
  lines.foldl (parseHostsLine parseIP) []

/-- The hosts-file merge loop in `main`:
`for k, v := range records { proxy.records[k] = v }` — each name's whole entry
list is replaced by the latest file's list. -/
def mergeStore (st : Store) (parsed : Store) : Store :=
  parsed.foldl (fun s kv => assocSet s kv.1 kv.2) st

/-- Loading a sequence of hosts files as `main` does: parse each file and
merge it into the accumulated store. -/
def loadHostsFiles (parseIP : String → Option IP) (files : List (List String)) : Store :=
  files.foldl (fun st f => mergeStore st (parseHostsScanner parseIP f)) []

/-- `st[name]` read with a missing key yielding the empty list. -/
def storeFor (st : Store) (name : String) : List HostInfo :=
  (assocFind st name).getD []

/-- A concrete instance of `net.ParseIP` covering dotted-quad IPv4 literals
(used by witnesses; the generic theorems hold for any parser). -/
def parseDecByte (s : String) : Option Nat :=
  match s.toList with
  | [] => none
  | cs =>
    if cs.all Char.isDigit ∧ cs.length ≤ 3 ∧ (cs.length = 1 ∨ cs.head? ≠ some '0') then
      let v := cs.foldl (fun acc c => acc * 10 + (c.toNat - 48)) 0
      if v < 256 then some v else none
    else none

def splitDots : List Char → List (List Char)
  | [] => [[]]
  | c :: rest =>
    if c = '.' then [] :: splitDots rest
    else
      match splitDots rest with
      | g :: gs => (c :: g) :: gs
      | [] => [[c]]

def parseIPv4 (s : String) : Option IP :=
  match (splitDots s.toList).map (fun g => parseDecByte (String.mk g)) with
  | [some a, some b, some c, some d] => some (.v4 a b c d)
  | _ => none

/-! ## Reverse-lookup index construction (`reverseaddr` and the loop in `main`) -/

def hexDigitChar (n : Nat) : Char := "0123456789abcdef".toList.getD n '0'

/-- `reverseaddr` from main.go (a copy of net.dnsclient's): nil maps to `""`;
an IPv4 address (bytes 12..15 of the 16-byte slice being a,b,c,d) maps to
`d.c.b.a.in-addr.arpa.`; an IPv6 address maps to its nibbles in reverse,
low nibble first, followed by `ip6.arpa.`. -/
def reverseaddr : Option IP → String
  | none => ""
  | some (.v4 a b c d) =>
    Nat.repr d ++ "." ++ Nat.repr c ++ "." ++ Nat.repr b ++ "." ++ Nat.repr a ++ ".in-addr.arpa."
  | some (.v6 bytes) =>
    String.mk
      ((bytes.reverse.map (fun v => [hexDigitChar (v % 16), '.', hexDigitChar (v / 16), '.'])).flatten)
      ++ "ip6.arpa."

/-- One iteration of the PTR-index loop in `main`: skip alias entries, and
record `reverseaddr(ip.IP) -> name` only if the reverse name is not yet
present. -/
def addPtrEntry (ptr : List (String × String)) (name : String) (h : HostInfo) :
    List (String × String) :=
  if h.IsCName then ptr
  else
    let reversed := reverseaddr h.ip
    match assocFind ptr reversed with
    | some _ => ptr
    | none => assocSet ptr reversed name

/-- The PTR-index construction loop of `main`, starting from a given index. -/
def buildPtrFrom (ptr : List (String × String)) (entries : Store) : List (String × String) :=
  entries.foldl (fun acc kv => kv.2.foldl (fun a h => addPtrEntry a kv.1 h) acc) ptr

/-- The Reverse-Lookup Index as `main` builds it from the loaded store. -/
def buildPtrRecords (entries : Store) : List (String × String) :=
  buildPtrFrom [] entries

/-- Reference definition following the claim's wording: the owner recorded
for a reverse name is the *first* forward name encountered in iteration
order one of whose address entries synthesizes that reverse name. -/
def firstPtrOwner : Store → String → Option String
  | [], _ => none
  | (name, hs) :: rest, rev =>
    if hs.any (fun h => !h.IsCName && (reverseaddr h.ip == rev)) then some name
    else firstPtrOwner rest rev

/-! ## DoH upstream request construction (`HttpUpstream.Exchange`, upstream.go) -/

def b64UrlAlphabet : List Char :=
  "ABCDEFGHIJKLMNOPQRSTUVWXYZabcdefghijklmnopqrstuvwxyz0123456789-_".toList

def b64Char (n : Nat) : Char := b64UrlAlphabet.getD n 'A'

/-- `base64.RawURLEncoding.EncodeToString` (Go stdlib): URL-safe base64
without padding, written with division/modulus arithmetic on byte values. -/
def base64RawUrlChars : List Nat → List Char
  | [] => []
  | [b1] => [b64Char (b1 / 4), b64Char (b1 % 4 * 16)]
  | [b1, b2] => [b64Char (b1 / 4), b64Char (b1 % 4 * 16 + b2 / 16), b64Char (b2 % 16 * 4)]
  | b1 :: b2 :: b3 :: rest =>
    b64Char (b1 / 4) :: b64Char (b1 % 4 * 16 + b2 / 16) ::
      b64Char (b2 % 16 * 4 + b3 / 64) :: b64Char (b3 % 64) :: base64RawUrlChars rest

def base64RawUrl (bs : List Nat) : String := String.mk (base64RawUrlChars bs)

structure HttpRequest where
  method : String
  urlBase : String
  rawQuery : String
  headers : List (String × String)
  deriving DecidableEq, Repr

/-- `http.Header.Set`. -/
def headerSet (hs : List (String × String)) (k v : String) : List (String × String) :=
  assocSet hs k v

def headerGet (hs : List (String × String)) (k : String) : Option String :=
  assocFind hs k

/-- The HTTP request `HttpUpstream.Exchange` (upstream.go) constructs before
performing the network round trip.  `req.Pack()` (the dns library's wire
codec) is external: the packed bytes are a parameter, as is
`forwardedFor.String()` (Go's `net.IP` rendering). -/
def exchangeHttpRequest (baseUrl : String) (packed : List Nat) (clientIP : String) :
    HttpRequest :=
  { method := "GET"
    urlBase := baseUrl
    rawQuery := "dns=" ++ base64RawUrl packed
    headers :=
      headerSet (headerSet (headerSet (headerSet (headerSet []
        "Accept" "application/dns-message")
        "User-Agent" "")
        "X-Forwarded-Proto" "https")
        "X-Forwarded-For" clientIP)
        "X-Real-IP" clientIP }

/-! ## Basic lemmas about the message builders -/

theorem setReply_answer (m r : DnsMsg) : (setReply m r).answer = m.answer := by
  unfold setReply
  cases hq : r.question <;> split <;> rfl

theorem setRcode_answer (m r : DnsMsg) (rc : Nat) : (setRcode m r rc).answer = m.answer := by
  unfold setRcode; exact setReply_answer m r

theorem setRcode_rcode (m r : DnsMsg) (rc : Nat) : (setRcode m r rc).rcode = rc := rfl

theorem initReply_answer (r : DnsMsg) : (initReply r).answer = [] := by
  unfold initReply
  rw [show ({ setReply newMsg r with compress := false, recursionAvailable := true } : DnsMsg).answer
        = (setReply newMsg r).answer from rfl, setReply_answer]
  rfl

theorem initReply_question (r : DnsMsg) (q : Question) (rest : List Question)
    (hq : r.question = q :: rest) : (initReply r).question = [q] := by
  unfold initReply setReply
  rw [hq]

/-! ## Claim C1 -/

/-- C1: for a name whose record-store entries are exactly one IPv4 address,
an AAAA query is marked locally handled with zero answers appended and no
upstream contact, and an A query is marked locally handled with exactly one
A record appended, owned by the query name, stamped with the local TTL and
carrying the stored address; at the resolver level both produce a success
reply with no upstream exchange. -/
theorem c1_ipv4_only_entry (fuel : Nat) (p : dnsProxy) (cache : Cache) (now : Nat)
    (nm : String) (a b c d : Nat) (addr : NetAddr)
    (hrec : recordsFor p nm = [⟨some (.v4 a b c d), ""⟩]) :
    (∀ m : DnsMsg, m.question = [⟨nm, typeAAAA, 1⟩] →
        addLocalResponses fuel p cache now m addr = ⟨m, true, cache, []⟩) ∧
    (∀ m : DnsMsg, m.question = [⟨nm, typeA, 1⟩] →
        addLocalResponses fuel p cache now m addr =
          ⟨{ m with answer := m.answer ++ [⟨nm, typeA, p.localTTL, .a (.v4 a b c d)⟩] },
            true, cache, []⟩) ∧
    (∀ r : DnsMsg, r.opcode = opcodeQuery → r.question = [⟨nm, typeAAAA, 1⟩] →
        ∃ mm, respondToRequest (fuel + 1) p cache now r addr = ⟨.ok mm, cache, []⟩ ∧
          mm.answer = [] ∧ mm.rcode = rcodeSuccess) ∧
    (∀ r : DnsMsg, r.opcode = opcodeQuery → r.question = [⟨nm, typeA, 1⟩] →
        ∃ mm, respondToRequest (fuel + 1) p cache now r addr = ⟨.ok mm, cache, []⟩ ∧
          mm.answer = [⟨nm, typeA, p.localTTL, .a (.v4 a b c d)⟩] ∧
          mm.rcode = rcodeSuccess) := by
  have hAAAA : ∀ m : DnsMsg, m.question = [⟨nm, typeAAAA, 1⟩] →
      addLocalResponses fuel p cache now m addr = ⟨m, true, cache, []⟩ := by
    intro m hm
    obtain ⟨mid, mresp, mopc, mrc, mrd, mra, mcd, mcp, mqs, mans⟩ := m
    simp only [DnsMsg.question] at hm
    subst hm
    simp [addLocalResponses, processQuestions, hrec, processEntries, typeA, typeAAAA,
      HostInfo.IsIP, IP.to4]
  have hA : ∀ m : DnsMsg, m.question = [⟨nm, typeA, 1⟩] →
      addLocalResponses fuel p cache now m addr =
        ⟨{ m with answer := m.answer ++ [⟨nm, typeA, p.localTTL, .a (.v4 a b c d)⟩] },
          true, cache, []⟩ := by
    intro m hm
    obtain ⟨mid, mresp, mopc, mrc, mrd, mra, mcd, mcp, mqs, mans⟩ := m
    simp only [DnsMsg.question] at hm
    subst hm
    simp [addLocalResponses, processQuestions, hrec, processEntries, typeA, typeAAAA,
      HostInfo.IsIP, IP.to4]
  refine ⟨hAAAA, hA, ?_, ?_⟩
  · intro r hop hq
    have hq1 : (initReply r).question = [⟨nm, typeAAAA, 1⟩] := initReply_question r _ _ hq
    have h1 := hAAAA (initReply r) hq1
    refine ⟨setRcode (initReply r) r rcodeSuccess, ?_, ?_, ?_⟩
    · simp [respondToRequest, hop, h1, opcodeQuery]
    · rw [setRcode_answer, initReply_answer]
    · rfl
  · intro r hop hq
    have hq1 : (initReply r).question = [⟨nm, typeA, 1⟩] := initReply_question r _ _ hq
    have h1 := hA (initReply r) hq1
    refine ⟨setRcode { initReply r with
        answer := (initReply r).answer ++ [⟨nm, typeA, p.localTTL, .a (.v4 a b c d)⟩] }
        r rcodeSuccess, ?_, ?_, ?_⟩
    · simp [respondToRequest, hop, h1, opcodeQuery]
    · rw [setRcode_answer]
      simp [initReply_answer]
    · rfl

/-- The concrete proxy used by witnesses for local-entry claims. -/
def proxyV4Only : dnsProxy :=
  { upstream := fun _ _ => none
    records := [("h.", [⟨some (.v4 1 2 3 4), ""⟩])]
    ptrRecords := []
    localTTL := 10
    verbose := false }

/-- Witness for C1 at a concrete proxy, name and address. -/
theorem c1_ipv4_only_entry_witness :
    recordsFor proxyV4Only "h." = [⟨some (.v4 1 2 3 4), ""⟩] ∧
    addLocalResponses 1 proxyV4Only initCnameCache 0
        { newMsg with question := [⟨"h.", typeAAAA, 1⟩] } (.udp (.v4 9 9 9 9) 5) =
      ⟨{ newMsg with question := [⟨"h.", typeAAAA, 1⟩] }, true, initCnameCache, []⟩ ∧
    addLocalResponses 1 proxyV4Only initCnameCache 0
        { newMsg with question := [⟨"h.", typeA, 1⟩] } (.udp (.v4 9 9 9 9) 5) =
      ⟨{ newMsg with
          question := [⟨"h.", typeA, 1⟩],
          answer := [⟨"h.", typeA, 10, .a (.v4 1 2 3 4)⟩] },
        true, initCnameCache, []⟩ := by
  have hrec : recordsFor proxyV4Only "h." = [⟨some (.v4 1 2 3 4), ""⟩] := rfl
  have h := c1_ipv4_only_entry 1 proxyV4Only initCnameCache 0 "h." 1 2 3 4
    (.udp (.v4 9 9 9 9) 5) hrec
  exact ⟨hrec, h.1 _ rfl, h.2.1 _ rfl⟩

/-! ## Claim C2 -/

/-- C2: for an acyclic two-step local alias chain ending in an address entry,
an A or AAAA query for the chain's first name terminates (fuel 3 plus any
slack suffices) and every answer record in the final response is owned by the
original query name, not by an intermediate alias target. -/
theorem c2_alias_chain (fuel : Nat) (p : dnsProxy) (now : Nat)
    (n0 n1 n2 : String) (ip : IP) (addr : NetAddr) (qt : Nat)
    (hqt : qt = typeA ∨ qt = typeAAAA)
    (h0 : recordsFor p n0 = [⟨none, n1⟩])
    (h1 : recordsFor p n1 = [⟨none, n2⟩])
    (h2 : recordsFor p n2 = [⟨some ip, ""⟩]) :
    ∀ r : DnsMsg, r.opcode = opcodeQuery → r.question = [⟨n0, qt, 1⟩] →
      ∃ mm, (respondToRequest (fuel + 3) p initCnameCache now r addr).res = .ok mm ∧
        mm.answer.all (fun rr => rr.name == n0) = true := by
  intro r hop hq
  obtain ⟨mid, mresp, mopc, mrc, mrd, mra, mcd, mcp, mqs, mans⟩ := r
  simp only [DnsMsg.question] at hq
  simp only [DnsMsg.opcode] at hop
  subst hq hop
  rcases hqt with hqt | hqt <;> subst hqt <;> cases ip <;>
    simp [respondToRequest, addLocalResponses, processQuestions, processEntries, queryCName,
      freshRRs, cacheStore, assocFind, assocSet, initCnameCache, setQuestionMsg, newMsg,
      initReply, setReply, setRcode, h0, h1, h2, typeA, typeAAAA, opcodeQuery,
      HostInfo.IsIP, IP.to4, rcodeSuccess]

/-- The concrete alias-chain proxy used by the C2 witness. -/
def proxyChain : dnsProxy :=
  { upstream := fun _ _ => none
    records := [("x.", [⟨none, "y."⟩]), ("y.", [⟨none, "z."⟩]),
                ("z.", [⟨some (.v4 10 0 0 1), ""⟩])]
    ptrRecords := []
    localTTL := 5
    verbose := false }

/-- Witness for C2 at a concrete three-name chain. -/
theorem c2_alias_chain_witness :
    recordsFor proxyChain "x." = [⟨none, "y."⟩] ∧
    (∃ mm, (respondToRequest 3 proxyChain initCnameCache 0
        { newMsg with question := [⟨"x.", typeA, 1⟩] } (.udp (.v4 9 9 9 9) 5)).res = .ok mm ∧
      mm.answer.all (fun rr => rr.name == "x.") = true) := by
  refine ⟨rfl, ?_⟩
  exact c2_alias_chain 0 proxyChain 0 "x." "y." "z." (.v4 10 0 0 1) (.udp (.v4 9 9 9 9) 5)
    typeA (Or.inl rfl) rfl rfl rfl _ rfl rfl

/-! ## Claims C3 and C4 -/

/-- A store in which the alias target `t.` itself has a local address entry
(mirrors the `@host1 hostv4` configuration exercised by the repository's own
tests, where no upstream is reachable at all). -/
def proxyLocalAlias : dnsProxy :=
  { upstream := fun _ _ => none
    records := [("t.", [⟨some (.v4 1 2 3 4), ""⟩]), ("x.", [⟨none, "t."⟩])]
    ptrRecords := []
    localTTL := 5
    verbose := false }

def oldRRs : List RR := [⟨"old.", typeA, 5, .a (.v4 7 7 7 7)⟩]

/-- A cache holding an entry for `(A, "t.")` fetched at time 0. -/
def cacheT : Cache := [(typeA, [("t.", ⟨oldRRs, 0⟩)]), (typeAAAA, [])]

/-- Upstream answer used by witnesses whose upstream succeeds. -/
def upMsg : DnsMsg := { newMsg with answer := [⟨"t.", typeA, 60, .a (.v4 8 8 8 8)⟩] }

/-- A proxy with an empty record store and a succeeding upstream. -/
def proxyNoLocal : dnsProxy :=
  { upstream := fun _ _ => some upMsg
    records := []
    ptrRecords := []
    localTTL := 5
    verbose := false }

/-- C3 counterexample: for the key `(A, "t.")` with a stale cache entry
(5 seconds elapsed, TTL 5), a further resolution does *not* invoke the
upstream — the Exchange log stays empty, because the target `t.` resolves
locally — refuting "a further resolution invokes the upstream again". -/
theorem c3_counterexample :
    assocFind cacheT typeA = some [("t.", ⟨oldRRs, 0⟩)] ∧
    ¬ (5000000000 - 0 < 5 * 1000000000) ∧
    (queryCName 1 proxyLocalAlias cacheT 5000000000 "t." typeA (.udp (.v4 9 9 9 9) 5)).log
      = [] ∧
    (queryCName 1 proxyLocalAlias cacheT 5000000000 "t." typeA (.udp (.v4 9 9 9 9) 5)).res
      = .ok [⟨"t.", typeA, 5, .a (.v4 1 2 3 4)⟩] := by
  refine ⟨rfl, by decide, ?_, ?_⟩ <;>
    simp [queryCName, respondToRequest, addLocalResponses, processQuestions, processEntries,
      freshRRs, cacheStore, assocFind, assocSet, initCnameCache, setQuestionMsg, newMsg,
      initReply, setReply, setRcode, proxyLocalAlias, cacheT, oldRRs, recordsFor,
      typeA, typeAAAA, opcodeQuery, HostInfo.IsIP, IP.to4]

/-- Questions none of whose names have record-store or reverse-index entries
leave the state, the answers and the found flag untouched and produce no
upstream traffic. -/
theorem processQuestions_no_entries (fuel : Nat) (p : dnsProxy) (cache : Cache) (now : Nat)
    (qs : List Question) (answers : List RR) (found : Bool) (addr : NetAddr)
    (h : ∀ q ∈ qs, ((q.qtype = typeA ∨ q.qtype = typeAAAA) → recordsFor p q.name = []) ∧
      (q.qtype = typePTR → assocFind p.ptrRecords q.name = none)) :
    processQuestions fuel p cache now qs answers found addr = ⟨answers, found, cache, []⟩ := by
  induction qs generalizing answers found with
  | nil => simp [processQuestions]
  | cons q rest ih =>
    have hq := h q (by simp)
    have hrest : ∀ q ∈ rest, ((q.qtype = typeA ∨ q.qtype = typeAAAA) →
        recordsFor p q.name = []) ∧ (q.qtype = typePTR → assocFind p.ptrRecords q.name = none) :=
      fun q hq => h q (by simp [hq])
    by_cases h1 : q.qtype = typeA ∨ q.qtype = typeAAAA
    · simp [processQuestions, h1, hq.1 h1, processEntries, ih answers found hrest]
    · by_cases h2 : q.qtype = typePTR
      · simp [processQuestions, h1, h2, hq.2 h2, ih answers found hrest]
      · simp [processQuestions, h1, h2, ih answers found hrest]

/-- `addLocalResponses` on a message whose question names have no local
entries: nothing found, nothing changed, no upstream traffic. -/
theorem addLocalResponses_no_entries (fuel : Nat) (p : dnsProxy) (cache : Cache) (now : Nat)
    (m : DnsMsg) (addr : NetAddr)
    (h : ∀ q ∈ m.question, ((q.qtype = typeA ∨ q.qtype = typeAAAA) →
      recordsFor p q.name = []) ∧ (q.qtype = typePTR → assocFind p.ptrRecords q.name = none)) :
    addLocalResponses fuel p cache now m addr = ⟨m, false, cache, []⟩ := by
  unfold addLocalResponses
  rw [processQuestions_no_entries fuel p cache now m.question m.answer false addr h]

/-- The forwarding branch of `respondToRequest`: nothing found locally and
recursion desired means the original message goes to the upstream, whose
answer or failure is returned as-is, with the exchange logged. -/
theorem respondToRequest_forward (fuel : Nat) (p : dnsProxy) (cache : Cache) (now : Nat)
    (r : DnsMsg) (addr : NetAddr) (msg1 : DnsMsg) (cache1 : Cache) (log1 : Log)
    (hop : r.opcode = opcodeQuery) (hrd : r.recursionDesired = true)
    (haddl : addLocalResponses fuel p cache now (initReply r) addr =
      ⟨msg1, false, cache1, log1⟩) :
    respondToRequest (fuel + 1) p cache now r addr =
      match p.upstream r (getForwardedFor addr) with
      | some resp => ⟨.ok resp, cache1, log1 ++ [(r, getForwardedFor addr)]⟩
      | none => ⟨.error .upstreamFailure, cache1, log1 ++ [(r, getForwardedFor addr)]⟩ := by
  cases hU : p.upstream r (getForwardedFor addr) <;>
    simp [respondToRequest, hop, hrd, haddl, hU, opcodeQuery]

/-- The NXDOMAIN branch of `respondToRequest`: nothing found locally and
recursion not desired yields the locally built name-error reply. -/
theorem respondToRequest_nxdomain (fuel : Nat) (p : dnsProxy) (cache : Cache) (now : Nat)
    (r : DnsMsg) (addr : NetAddr) (msg1 : DnsMsg) (cache1 : Cache) (log1 : Log)
    (hop : r.opcode = opcodeQuery) (hrd : r.recursionDesired = false)
    (haddl : addLocalResponses fuel p cache now (initReply r) addr =
      ⟨msg1, false, cache1, log1⟩) :
    respondToRequest (fuel + 1) p cache now r addr =
      ⟨.ok (setRcode msg1 r rcodeNameError), cache1, log1⟩ := by
  simp [respondToRequest, hop, hrd, haddl, opcodeQuery]

/-- The locally-handled branch of `respondToRequest`: when the local pass
found something, the reply is the accumulated message with a success rcode
and no further upstream exchange is performed. -/
theorem respondToRequest_local (fuel : Nat) (p : dnsProxy) (cache : Cache) (now : Nat)
    (r : DnsMsg) (addr : NetAddr) (msg1 : DnsMsg) (cache1 : Cache) (log1 : Log)
    (hop : r.opcode = opcodeQuery)
    (haddl : addLocalResponses fuel p cache now (initReply r) addr =
      ⟨msg1, true, cache1, log1⟩) :
    respondToRequest (fuel + 1) p cache now r addr =
      ⟨.ok (setRcode msg1 r rcodeSuccess), cache1, log1⟩ := by
  simp [respondToRequest, hop, haddl, opcodeQuery]

/-- The hypotheses of `addLocalResponses_no_entries` hold for the synthesized
alias query when the target name is absent from the record store. -/
theorem synth_query_no_entries (p : dnsProxy) (cname : String) (qt : Nat)
    (hqt : qt = typeA ∨ qt = typeAAAA) (htarget : recordsFor p cname = []) :
    ∀ q ∈ (initReply (setQuestionMsg newMsg cname qt)).question,
      ((q.qtype = typeA ∨ q.qtype = typeAAAA) → recordsFor p q.name = []) ∧
      (q.qtype = typePTR → assocFind p.ptrRecords q.name = none) := by
  have hq : (initReply (setQuestionMsg newMsg cname qt)).question = [⟨cname, qt, 1⟩] :=
    initReply_question _ _ _ rfl
  rw [hq]
  intro q hqmem
  rcases List.mem_singleton.mp hqmem with rfl
  refine ⟨fun _ => htarget, fun hptr => ?_⟩
  simp only at hptr
  rcases hqt with h | h <;> rw [h] at hptr <;> exact absurd hptr (by decide)

/-- A proxy with one alias entry whose target is absent and an upstream that
always fails. -/
def proxyFailingAlias : dnsProxy :=
  { upstream := fun _ _ => none
    records := [("x.", [⟨none, "t."⟩])]
    ptrRecords := []
    localTTL := 5
    verbose := false }

def rAliasA : DnsMsg := { newMsg with question := [⟨"x.", typeA, 1⟩] }

/-- The local A record `proxyLocalAlias` synthesizes for `t.`. -/
def rrT : RR := ⟨"t.", typeA, 5, .a (.v4 1 2 3 4)⟩

/-- The reply the resolver builds for the synthesized query for `t.` against
`proxyLocalAlias` (locally answered, success rcode). -/
def respT : DnsMsg :=
  { id := 0, response := true, opcode := 0, rcode := 0,
    recursionDesired := true, recursionAvailable := true,
    checkingDisabled := false, compress := false,
    question := [⟨"t.", typeA, 1⟩], answer := [rrT] }

/-- C3 (amended): a fresh cache hit for any `(record type, target)` key
returns the entry's answers unchanged, touches nothing and never contacts the
upstream; once the TTL has elapsed (or with no entry), the resolution
re-resolves the target through the full Query Resolver — which may answer
locally without invoking the upstream — and on *any* successful re-resolution
replaces the cache entry with the returned answers and a fresh timestamp; in
particular, when the target has no local record-store entry, the re-resolution
dispatches the synthesized query upstream and caches the upstream's
answers. -/
theorem c3_ttl_cache (fuel : Nat) (p : dnsProxy) (cname : String) (qt : Nat)
    (addr : NetAddr) :
    (∀ (cache : Cache) (inner : List (String × cacheEntry)) (e : cacheEntry) (now : Nat),
        assocFind cache qt = some inner → assocFind inner cname = some e →
        now - e.time < p.localTTL * 1000000000 →
        queryCName fuel p cache now cname qt addr = ⟨.ok e.rrs, cache, []⟩) ∧
    (∀ (cache : Cache) (inner : List (String × cacheEntry)) (resp : DnsMsg) (c1 : Cache)
        (lg : Log) (now : Nat),
        assocFind cache qt = some inner →
        freshRRs inner cname now p.localTTL = none →
        respondToRequest fuel p cache now (setQuestionMsg newMsg cname qt) addr =
          ⟨.ok resp, c1, lg⟩ →
        queryCName fuel p cache now cname qt addr =
          ⟨.ok resp.answer, cacheStore c1 qt cname ⟨resp.answer, now⟩, lg⟩) ∧
    (∀ (cache : Cache) (inner : List (String × cacheEntry)) (resp : DnsMsg) (now : Nat),
        qt = typeA ∨ qt = typeAAAA →
        assocFind cache qt = some inner →
        freshRRs inner cname now p.localTTL = none →
        recordsFor p cname = [] →
        p.upstream (setQuestionMsg newMsg cname qt) (getForwardedFor addr) = some resp →
        queryCName (fuel + 1) p cache now cname qt addr =
          ⟨.ok resp.answer, cacheStore cache qt cname ⟨resp.answer, now⟩,
            [(setQuestionMsg newMsg cname qt, getForwardedFor addr)]⟩) := by
  refine ⟨?_, ?_, ?_⟩
  · intro cache inner e now hbucket hentry hfresh
    simp [queryCName, hbucket, freshRRs, hentry, hfresh]
  · intro cache inner resp c1 lg now hbucket hmiss hresp
    simp only [queryCName, hbucket, hmiss, hresp]
  · intro cache inner resp now hqt hbucket hmiss htarget hup
    have haddl := addLocalResponses_no_entries fuel p cache now
      (initReply (setQuestionMsg newMsg cname qt)) addr
      (synth_query_no_entries p cname qt hqt htarget)
    have hresp := respondToRequest_forward fuel p cache now
      (setQuestionMsg newMsg cname qt) addr _ _ _ rfl rfl haddl
    rw [hup] at hresp
    simp [queryCName, hbucket, hmiss, hresp]

/-- Witness for C3: a fresh hit at 1ns elapsed returns the stored answers
with no upstream call; a stale entry for a locally-defined target is
refreshed from the local answers with no upstream call; a stale entry for an
absent target is refreshed from the (succeeding) upstream. -/
theorem c3_ttl_cache_witness :
    queryCName 0 proxyLocalAlias cacheT 1 "t." typeA (.udp (.v4 9 9 9 9) 5) =
      ⟨.ok oldRRs, cacheT, []⟩ ∧
    queryCName 1 proxyLocalAlias cacheT 5000000000 "t." typeA (.udp (.v4 9 9 9 9) 5) =
      ⟨.ok [rrT], cacheStore cacheT typeA "t." ⟨[rrT], 5000000000⟩, []⟩ ∧
    queryCName 1 proxyNoLocal cacheT 6000000000 "t." typeA (.udp (.v4 9 9 9 9) 5) =
      ⟨.ok upMsg.answer, cacheStore cacheT typeA "t." ⟨upMsg.answer, 6000000000⟩,
        [(setQuestionMsg newMsg "t." typeA, .v4 9 9 9 9)]⟩ := by
  refine ⟨?_, ?_, ?_⟩
  · exact (c3_ttl_cache 0 proxyLocalAlias "t." typeA (.udp (.v4 9 9 9 9) 5)).1
      cacheT [("t.", ⟨oldRRs, 0⟩)] ⟨oldRRs, 0⟩ 1 rfl rfl (by decide)
  · have hresp : respondToRequest 1 proxyLocalAlias cacheT 5000000000
        (setQuestionMsg newMsg "t." typeA) (.udp (.v4 9 9 9 9) 5) =
        ⟨.ok respT, cacheT, []⟩ := by
      simp [respondToRequest, addLocalResponses, processQuestions, processEntries,
        recordsFor, assocFind, proxyLocalAlias, initReply, setReply, setRcode,
        setQuestionMsg, newMsg, HostInfo.IsIP, IP.to4, respT, rrT]
    exact (c3_ttl_cache 1 proxyLocalAlias "t." typeA (.udp (.v4 9 9 9 9) 5)).2.1
      cacheT [("t.", ⟨oldRRs, 0⟩)] respT cacheT [] 5000000000 rfl (by decide) hresp
  · exact (c3_ttl_cache 0 proxyNoLocal "t." typeA (.udp (.v4 9 9 9 9) 5)).2.2
      cacheT [("t.", ⟨oldRRs, 0⟩)] upMsg 6000000000 (Or.inl rfl) rfl (by decide) rfl rfl

/-- C4 counterexample: an A-type resolution of alias target `t.` that misses
the cache (the bucket holds no entry for `t.`) is *not* dispatched through
the Upstream Dispatcher: the Exchange log is empty because `t.` has a local
record-store entry, yet the resolution succeeds locally. -/
theorem c4_counterexample :
    freshRRs [] "t." 0 5 = none ∧
    (queryCName 1 proxyLocalAlias initCnameCache 0 "t." typeA (.udp (.v4 9 9 9 9) 5)).log
      = [] ∧
    (queryCName 1 proxyLocalAlias initCnameCache 0 "t." typeA (.udp (.v4 9 9 9 9) 5)).res
      = .ok [⟨"t.", typeA, 5, .a (.v4 1 2 3 4)⟩] := by
  refine ⟨rfl, ?_, ?_⟩ <;>
    simp [queryCName, respondToRequest, addLocalResponses, processQuestions, processEntries,
      freshRRs, cacheStore, assocFind, assocSet, initCnameCache, setQuestionMsg, newMsg,
      initReply, setReply, setRcode, proxyLocalAlias, recordsFor,
      typeA, typeAAAA, opcodeQuery, HostInfo.IsIP, IP.to4]

/-- C4 (amended): a cache-missing alias resolution synthesizes a query for
the target — of the requested type, with recursion requested, a standard
query — and resolves it through the full Query Resolver on behalf of the
original requester's address.  That synthesized query is dispatched through
the Upstream Dispatcher exactly when the resolver's local pass marks nothing
as locally handled for it: when the pass finds nothing, the Exchange log
gains the synthesized query with the requester's address; when the pass
handles the target locally, no exchange is added beyond those the pass
itself performed.  A target with no record-store entry is always in the
former case. -/
theorem c4_dispatch_on_miss (fuel : Nat) (p : dnsProxy) (cache : Cache) (now : Nat)
    (cname : String) (qt : Nat) (addr : NetAddr) (inner : List (String × cacheEntry))
    (hbucket : assocFind cache qt = some inner)
    (hmiss : freshRRs inner cname now p.localTTL = none) :
    (setQuestionMsg newMsg cname qt).recursionDesired = true ∧
    (setQuestionMsg newMsg cname qt).question = [⟨cname, qt, 1⟩] ∧
    (setQuestionMsg newMsg cname qt).opcode = opcodeQuery ∧
    ((addLocalResponses fuel p cache now
        (initReply (setQuestionMsg newMsg cname qt)) addr).found = false →
      (queryCName (fuel + 1) p cache now cname qt addr).log =
        (addLocalResponses fuel p cache now
          (initReply (setQuestionMsg newMsg cname qt)) addr).log ++
          [(setQuestionMsg newMsg cname qt, getForwardedFor addr)]) ∧
    ((addLocalResponses fuel p cache now
        (initReply (setQuestionMsg newMsg cname qt)) addr).found = true →
      (queryCName (fuel + 1) p cache now cname qt addr).log =
        (addLocalResponses fuel p cache now
          (initReply (setQuestionMsg newMsg cname qt)) addr).log) ∧
    ((qt = typeA ∨ qt = typeAAAA) → recordsFor p cname = [] →
      (queryCName (fuel + 1) p cache now cname qt addr).log =
        [(setQuestionMsg newMsg cname qt, getForwardedFor addr)]) := by
  refine ⟨rfl, rfl, rfl, ?_, ?_, ?_⟩
  · intro hf
    rcases haddl : addLocalResponses fuel p cache now
      (initReply (setQuestionMsg newMsg cname qt)) addr with ⟨m1, fnd, c1, l1⟩
    rw [haddl] at hf
    simp only at hf
    subst hf
    have hresp := respondToRequest_forward fuel p cache now
      (setQuestionMsg newMsg cname qt) addr m1 c1 l1 rfl rfl haddl
    cases hup : p.upstream (setQuestionMsg newMsg cname qt) (getForwardedFor addr) <;>
      rw [hup] at hresp <;> simp only [queryCName, hbucket, hmiss, hresp]
  · intro hf
    rcases haddl : addLocalResponses fuel p cache now
      (initReply (setQuestionMsg newMsg cname qt)) addr with ⟨m1, fnd, c1, l1⟩
    rw [haddl] at hf
    simp only at hf
    subst hf
    have hresp := respondToRequest_local fuel p cache now
      (setQuestionMsg newMsg cname qt) addr m1 c1 l1 rfl haddl
    simp only [queryCName, hbucket, hmiss, hresp]
  · intro hqt htarget
    have haddl := addLocalResponses_no_entries fuel p cache now
      (initReply (setQuestionMsg newMsg cname qt)) addr
      (synth_query_no_entries p cname qt hqt htarget)
    have hresp := respondToRequest_forward fuel p cache now
      (setQuestionMsg newMsg cname qt) addr _ _ _ rfl rfl haddl
    cases hup : p.upstream (setQuestionMsg newMsg cname qt) (getForwardedFor addr) <;>
      rw [hup] at hresp <;> simp [queryCName, hbucket, hmiss, hresp]

/-- Witness for C4: an absent target is dispatched upstream; a target whose
only entry is a failing alias is also dispatched upstream (its log holds the
nested alias attempt and then the synthesized query itself); a locally
answered target adds no exchange. -/
theorem c4_dispatch_on_miss_witness :
    recordsFor proxyNoLocal "t." = [] ∧
    (queryCName 1 proxyNoLocal initCnameCache 0 "t." typeA (.udp (.v4 9 9 9 9) 5)).log =
      [(setQuestionMsg newMsg "t." typeA, .v4 9 9 9 9)] ∧
    (queryCName 2 proxyFailingAlias initCnameCache 0 "x." typeA (.udp (.v4 9 9 9 9) 5)).log =
      [(setQuestionMsg newMsg "t." typeA, .v4 9 9 9 9),
        (setQuestionMsg newMsg "x." typeA, .v4 9 9 9 9)] ∧
    (queryCName 1 proxyLocalAlias initCnameCache 0 "t." typeA (.udp (.v4 9 9 9 9) 5)).log =
      [] := by
  refine ⟨rfl, ?_, ?_, ?_⟩
  · exact (c4_dispatch_on_miss 0 proxyNoLocal initCnameCache 0 "t." typeA
      (.udp (.v4 9 9 9 9) 5) [] rfl rfl).2.2.2.2.2 (Or.inl rfl) rfl
  · have haddlX : addLocalResponses 1 proxyFailingAlias initCnameCache 0
        (initReply (setQuestionMsg newMsg "x." typeA)) (.udp (.v4 9 9 9 9) 5) =
        ⟨initReply (setQuestionMsg newMsg "x." typeA), false, initCnameCache,
          [(setQuestionMsg newMsg "t." typeA, .v4 9 9 9 9)]⟩ := by
      simp [addLocalResponses, processQuestions, processEntries, queryCName,
        respondToRequest, freshRRs, assocFind, initCnameCache, recordsFor,
        proxyFailingAlias, initReply, setReply, setQuestionMsg, newMsg,
        HostInfo.IsIP, getForwardedFor]
    have h2 := (c4_dispatch_on_miss 1 proxyFailingAlias initCnameCache 0 "x." typeA
      (.udp (.v4 9 9 9 9) 5) [] rfl rfl).2.2.2.1 (by rw [haddlX])
    rw [haddlX] at h2
    exact h2
  · have haddlT : addLocalResponses 0 proxyLocalAlias initCnameCache 0
        (initReply (setQuestionMsg newMsg "t." typeA)) (.udp (.v4 9 9 9 9) 5) =
        ⟨respT, true, initCnameCache, []⟩ := by
      simp [addLocalResponses, processQuestions, processEntries, recordsFor, assocFind,
        proxyLocalAlias, initReply, setReply, setQuestionMsg, newMsg,
        HostInfo.IsIP, IP.to4, respT, rrT]
    have h3 := (c4_dispatch_on_miss 0 proxyLocalAlias initCnameCache 0 "t." typeA
      (.udp (.v4 9 9 9 9) 5) [] rfl rfl).2.2.2.2.1 (by rw [haddlT])
    rw [haddlT] at h3
    exact h3

/-! ## Claims C5 and C6 -/

theorem initReply_question_sub (r : DnsMsg) : ∀ q ∈ (initReply r).question, q ∈ r.question := by
  unfold initReply setReply
  cases hq : r.question with
  | nil => split <;> simp [newMsg]
  | cons q0 tl => split <;> simp

/-- C5 counterexample: a standard query with recursion not desired in which
no question ends up locally handled (the only entry is an alias whose
resolution fails) is answered with the locally built NXDOMAIN reply — but the
upstream *was* invoked during the failed alias resolution, refuting "never
invokes the upstream exchange". -/
theorem c5_counterexample :
    (addLocalResponses 1 proxyFailingAlias initCnameCache 0 (initReply rAliasA)
        (.udp (.v4 9 9 9 9) 5)).found = false ∧
    rAliasA.recursionDesired = false ∧
    rAliasA.opcode = opcodeQuery ∧
    (respondToRequest 2 proxyFailingAlias initCnameCache 0 rAliasA
        (.udp (.v4 9 9 9 9) 5)).log = [(setQuestionMsg newMsg "t." typeA, .v4 9 9 9 9)] ∧
    (respondToRequest 2 proxyFailingAlias initCnameCache 0 rAliasA
        (.udp (.v4 9 9 9 9) 5)).res =
      .ok (setRcode (initReply rAliasA) rAliasA rcodeNameError) := by
  refine ⟨?_, rfl, rfl, ?_, ?_⟩ <;>
    simp [respondToRequest, addLocalResponses, processQuestions, processEntries, queryCName,
      freshRRs, assocFind, initCnameCache, setQuestionMsg, newMsg, initReply, setReply,
      setRcode, proxyFailingAlias, rAliasA, recordsFor, HostInfo.IsIP, getForwardedFor]

/-- C5 (amended): for a standard query with recursion not desired none of
whose question names has a record-store or reverse-index entry (hence nothing
is locally handled), the resolver returns the locally built reply with the
name-error rcode and performs no upstream exchange at all.  (If a question
has an alias entry whose resolution fails, the reply is still the locally
built NXDOMAIN message, but upstream exchanges may have happened while the
alias resolution was attempted.) -/
theorem c5_nxdomain_no_upstream (fuel : Nat) (p : dnsProxy) (cache : Cache) (now : Nat)
    (r : DnsMsg) (addr : NetAddr)
    (hop : r.opcode = opcodeQuery) (hrd : r.recursionDesired = false)
    (h : ∀ q ∈ r.question, recordsFor p q.name = [] ∧ assocFind p.ptrRecords q.name = none) :
    respondToRequest (fuel + 1) p cache now r addr =
      ⟨.ok (setRcode (initReply r) r rcodeNameError), cache, []⟩ := by
  have haddl := addLocalResponses_no_entries fuel p cache now (initReply r) addr
    (fun q hq =>
      have h' := h q (initReply_question_sub r q hq)
      ⟨fun _ => h'.1, fun _ => h'.2⟩)
  exact respondToRequest_nxdomain fuel p cache now r addr _ _ _ hop hrd haddl

/-- A proxy with an empty store and a failing upstream. -/
def proxyEmptyFail : dnsProxy :=
  { upstream := fun _ _ => none
    records := []
    ptrRecords := []
    localTTL := 5
    verbose := false }

def rAbsentNoRD : DnsMsg := { newMsg with question := [⟨"nx.", typeA, 1⟩] }

/-- Witness for C5 at a concrete absent name. -/
theorem c5_nxdomain_no_upstream_witness :
    recordsFor proxyEmptyFail "nx." = [] ∧
    respondToRequest 1 proxyEmptyFail initCnameCache 0 rAbsentNoRD (.udp (.v4 9 9 9 9) 5) =
      ⟨.ok (setRcode (initReply rAbsentNoRD) rAbsentNoRD rcodeNameError),
        initCnameCache, []⟩ := by
  refine ⟨rfl, ?_⟩
  exact c5_nxdomain_no_upstream 0 proxyEmptyFail initCnameCache 0 rAbsentNoRD
    (.udp (.v4 9 9 9 9) 5) rfl rfl
    (fun q hq => by rcases List.mem_singleton.mp hq with rfl; exact ⟨rfl, rfl⟩)

/-- C6: for a standard query that is not locally handled, with recursion
desired and a failing upstream exchange, the message written back to the
client is the locally built reply to the original query carrying the
server-failure rcode, with no answer records. -/
theorem c6_upstream_failure_servfail (fuel : Nat) (p : dnsProxy) (cache : Cache) (now : Nat)
    (r : DnsMsg) (addr : NetAddr)
    (hop : r.opcode = opcodeQuery) (hrd : r.recursionDesired = true)
    (hfound : (addLocalResponses fuel p cache now (initReply r) addr).found = false)
    (hup : p.upstream r (getForwardedFor addr) = none) :
    (handleDnsRequest (fuel + 1) p cache now r addr).1 =
      setRcode (initReply r) r rcodeServerFailure ∧
    (setRcode (initReply r) r rcodeServerFailure).answer = [] := by
  constructor
  · rcases haddl : addLocalResponses fuel p cache now (initReply r) addr with
      ⟨msg1, fnd, cache1, log1⟩
    rw [haddl] at hfound
    simp only at hfound
    subst hfound
    have hresp := respondToRequest_forward fuel p cache now r addr msg1 cache1 log1
      hop hrd haddl
    rw [hup] at hresp
    simp [handleDnsRequest, hresp]
  · rw [setRcode_answer, initReply_answer]

def rAbsentRD : DnsMsg := { newMsg with question := [⟨"nx.", typeA, 1⟩], recursionDesired := true }

/-- Witness for C6 at a concrete query against an empty store with a failing
upstream. -/
theorem c6_upstream_failure_servfail_witness :
    rAbsentRD.recursionDesired = true ∧
    proxyEmptyFail.upstream rAbsentRD (.v4 9 9 9 9) = none ∧
    (handleDnsRequest 1 proxyEmptyFail initCnameCache 0 rAbsentRD (.udp (.v4 9 9 9 9) 5)).1 =
      setRcode (initReply rAbsentRD) rAbsentRD rcodeServerFailure := by
  refine ⟨rfl, rfl, ?_⟩
  refine (c6_upstream_failure_servfail 0 proxyEmptyFail initCnameCache 0 rAbsentRD
    (.udp (.v4 9 9 9 9) 5) rfl rfl ?_ rfl).1
  rw [addLocalResponses_no_entries 0 proxyEmptyFail initCnameCache 0 (initReply rAbsentRD)
    (.udp (.v4 9 9 9 9) 5)
    (fun q hq => by rcases List.mem_singleton.mp hq with rfl; exact ⟨fun _ => rfl, fun _ => rfl⟩)]

/-! ## Claim C8: failures leave the cache untouched -/

/-- A failing `respondToRequest` leaves the cache unchanged. -/
def RespondErrInv (fuel : Nat) : Prop :=
  ∀ (p : dnsProxy) (cache : Cache) (now : Nat) (r : DnsMsg) (addr : NetAddr)
    (e : DnsError) (c2 : Cache) (lg : Log),
    respondToRequest fuel p cache now r addr = ⟨.error e, c2, lg⟩ → c2 = cache

/-- A failing `queryCName` leaves the cache unchanged. -/
def QueryErrInv (fuel : Nat) : Prop :=
  ∀ (p : dnsProxy) (cache : Cache) (now : Nat) (cname : String) (qt : Nat) (addr : NetAddr)
    (e : DnsError) (c2 : Cache) (lg : Log),
    queryCName fuel p cache now cname qt addr = ⟨.error e, c2, lg⟩ → c2 = cache

/-- If nothing was found by the entry loop, the incoming flag was false and
neither the answers nor the cache changed. -/
def EntriesNotFoundInv (fuel : Nat) : Prop :=
  ∀ (p : dnsProxy) (cache : Cache) (now : Nat) (q : Question) (entries : List HostInfo)
    (answers : List RR) (found : Bool) (addr : NetAddr),
    (processEntries fuel p cache now q entries answers found addr).found = false →
    (processEntries fuel p cache now q entries answers found addr).cache = cache ∧
    (processEntries fuel p cache now q entries answers found addr).answers = answers ∧
    found = false

/-- The analogue of `EntriesNotFoundInv` for the question loop. -/
def QuestionsNotFoundInv (fuel : Nat) : Prop :=
  ∀ (p : dnsProxy) (cache : Cache) (now : Nat) (qs : List Question)
    (answers : List RR) (found : Bool) (addr : NetAddr),
    (processQuestions fuel p cache now qs answers found addr).found = false →
    (processQuestions fuel p cache now qs answers found addr).cache = cache ∧
    (processQuestions fuel p cache now qs answers found addr).answers = answers ∧
    found = false

theorem queryErrInv_of_respond (fuel : Nat) (hr : RespondErrInv fuel) : QueryErrInv fuel := by
  intro p cache now cname qt addr e c2 lg hqc
  cases hb : assocFind cache qt with
  | none =>
    simp only [queryCName, hb, QueryResult.mk.injEq] at hqc
    exact hqc.2.1.symm
  | some inner =>
    cases hf : freshRRs inner cname now p.localTTL with
    | some rrs =>
      simp only [queryCName, hb, hf] at hqc
      simp at hqc
    | none =>
      rcases hresp : respondToRequest fuel p cache now (setQuestionMsg newMsg cname qt) addr
        with ⟨rres, cr, lr⟩
      cases rres with
      | ok resp =>
        simp only [queryCName, hb, hf, hresp] at hqc
        simp at hqc
      | error e2 =>
        simp only [queryCName, hb, hf, hresp, QueryResult.mk.injEq] at hqc
        rw [← hqc.2.1]
        exact hr p cache now _ addr e2 cr lr hresp

theorem entriesInv_of_query (fuel : Nat) (hq : QueryErrInv fuel) : EntriesNotFoundInv fuel := by
  intro p cache now q entries answers found addr
  induction entries generalizing cache answers found with
  | nil => intro h; simp only [processEntries] at h ⊢; exact ⟨trivial, trivial, h⟩
  | cons record rest ih =>
    intro h
    by_cases hip : record.IsIP
    · cases hipv : record.ip with
      | none =>
        simp only [processEntries, hip, if_true, hipv] at h ⊢
        exact ih cache answers found h
      | some ip =>
        by_cases ht : q.qtype = typeAAAA
        · cases h4 : ip.to4 with
          | some ip4 =>
            simp only [processEntries, hip, if_true, hipv, ht, if_pos, h4] at h
            exact absurd (ih cache answers true h).2.2 (by simp)
          | none =>
            simp only [processEntries, hip, if_true, hipv, ht, if_pos, h4] at h
            exact absurd (ih cache _ true h).2.2 (by simp)
        · cases h4 : ip.to4 with
          | none =>
            simp only [processEntries, hip, if_true, hipv, if_neg ht, h4] at h
            exact absurd (ih cache answers true h).2.2 (by simp)
          | some ip4 =>
            simp only [processEntries, hip, if_true, hipv, if_neg ht, h4] at h
            exact absurd (ih cache _ true h).2.2 (by simp)
    · rcases hqc : queryCName fuel p cache now record.cname q.qtype addr with ⟨qres, cq, lq⟩
      cases qres with
      | error e =>
        simp only [processEntries, hip, if_false, Bool.false_eq_true, hqc] at h ⊢
        have hcq : cq = cache := hq p cache now record.cname q.qtype addr e cq lq hqc
        subst hcq
        exact ih cq answers found h
      | ok rrs =>
        simp only [processEntries, hip, if_false, Bool.false_eq_true, hqc] at h
        exact absurd (ih cq _ true h).2.2 (by simp)

theorem questionsInv_of_entries (fuel : Nat) (he : EntriesNotFoundInv fuel) :
    QuestionsNotFoundInv fuel := by
  intro p cache now qs answers found addr
  induction qs generalizing cache answers found with
  | nil => intro h; simp only [processQuestions] at h ⊢; exact ⟨trivial, trivial, h⟩
  | cons q rest ih =>
    intro h
    by_cases h1 : q.qtype = typeA ∨ q.qtype = typeAAAA
    · rw [processQuestions, if_pos h1] at h ⊢
      simp only at h ⊢
      rcases ih _ _ _ h with ⟨hc, ha, hf⟩
      rcases he p cache now q (recordsFor p q.name) answers found addr hf with ⟨hc2, ha2, hf2⟩
      refine ⟨?_, ?_, hf2⟩
      · rw [hc, hc2]
      · rw [ha, ha2]
    · by_cases h2 : q.qtype = typePTR
      · cases hptr : assocFind p.ptrRecords q.name with
        | none =>
          rw [processQuestions, if_neg h1, if_pos h2, hptr] at h ⊢
          exact ih cache answers found h
        | some tgt =>
          rw [processQuestions, if_neg h1, if_pos h2, hptr] at h
          exact absurd (ih cache _ true h).2.2 (by simp)
      · rw [processQuestions, if_neg h1, if_neg h2] at h ⊢
        exact ih cache answers found h

theorem respondErrInv_zero : RespondErrInv 0 := by
  intro p cache now r addr e c2 lg h
  rw [respondToRequest] at h
  cases h
  rfl

theorem respondErrInv_succ (fuel : Nat) (hpq : QuestionsNotFoundInv fuel) :
    RespondErrInv (fuel + 1) := by
  intro p cache now r addr e c2 lg h
  by_cases hop : r.opcode = opcodeQuery
  · rcases hq : processQuestions fuel p cache now (initReply r).question (initReply r).answer
      false addr with ⟨qa, qf, qc, ql⟩
    rw [respondToRequest] at h
    simp only [hop, if_pos, addLocalResponses, hq] at h
    cases qf with
    | true => simp at h
    | false =>
      by_cases hrd : r.recursionDesired
      · cases hup : p.upstream r (getForwardedFor addr) with
        | some resp => simp [hrd, hup] at h
        | none =>
          simp [hrd, hup] at h
          have := hpq p cache now (initReply r).question (initReply r).answer false addr
          rw [hq] at this
          simp only at this
          rcases this trivial with ⟨hc, _, _⟩
          rw [← h.2.1, hc]
      · simp [hrd] at h
  · rw [respondToRequest] at h
    simp [hop] at h

theorem respondErrInv_all : ∀ fuel, RespondErrInv fuel := by
  intro fuel
  induction fuel with
  | zero => exact respondErrInv_zero
  | succ n ih =>
    exact respondErrInv_succ n
      (questionsInv_of_entries n (entriesInv_of_query n (queryErrInv_of_respond n ih)))

/-- C8: an alias resolution that misses the cache and whose synthesized query
fails propagates that failure to the caller and leaves the alias cache
completely unchanged: no entry is created or overwritten for the failed
key. -/
theorem c8_failure_leaves_cache (fuel : Nat) (p : dnsProxy) (cache : Cache) (now : Nat)
    (cname : String) (qt : Nat) (addr : NetAddr) (inner : List (String × cacheEntry))
    (e : DnsError) (c2 : Cache) (lg : Log)
    (hbucket : assocFind cache qt = some inner)
    (hmiss : freshRRs inner cname now p.localTTL = none)
    (hresp : respondToRequest fuel p cache now (setQuestionMsg newMsg cname qt) addr =
      ⟨.error e, c2, lg⟩) :
    queryCName fuel p cache now cname qt addr = ⟨.error e, cache, lg⟩ := by
  have hc : c2 = cache := respondErrInv_all fuel p cache now _ addr e c2 lg hresp
  subst hc
  simp only [queryCName, hbucket, hmiss, hresp]

/-- Witness for C8: a concrete cache-missing alias resolution against a
failing upstream propagates the failure and returns the cache as it was. -/
theorem c8_failure_leaves_cache_witness :
    queryCName 1 proxyEmptyFail initCnameCache 0 "t." typeA (.udp (.v4 9 9 9 9) 5) =
      ⟨.error .upstreamFailure, initCnameCache,
        [(setQuestionMsg newMsg "t." typeA, .v4 9 9 9 9)]⟩ := by
  have haddl := addLocalResponses_no_entries 0 proxyEmptyFail initCnameCache 0
    (initReply (setQuestionMsg newMsg "t." typeA)) (.udp (.v4 9 9 9 9) 5)
    (synth_query_no_entries proxyEmptyFail "t." typeA (Or.inl rfl) rfl)
  have hresp := respondToRequest_forward 0 proxyEmptyFail initCnameCache 0
    (setQuestionMsg newMsg "t." typeA) (.udp (.v4 9 9 9 9) 5) _ _ _ rfl rfl haddl
  exact c8_failure_leaves_cache 1 proxyEmptyFail initCnameCache 0 "t." typeA
    (.udp (.v4 9 9 9 9) 5) [] .upstreamFailure initCnameCache
    [(setQuestionMsg newMsg "t." typeA, .v4 9 9 9 9)] rfl rfl hresp

/-! ## Claim C10: reverse-index construction is first-wins -/

theorem addPtr_fold_find (hs : List HostInfo) (name : String) (ptr : List (String × String))
    (rev : String) :
    assocFind (hs.foldl (fun a h => addPtrEntry a name h) ptr) rev =
      match assocFind ptr rev with
      | some v => some v
      | none =>
        if hs.any (fun h => !h.IsCName && (reverseaddr h.ip == rev)) then some name
        else none := by
  induction hs generalizing ptr with
  | nil => cases hp : assocFind ptr rev <;> simp [hp]
  | cons h t ih =>
    rw [List.foldl_cons]
    by_cases hcn : h.IsCName
    · rw [show addPtrEntry ptr name h = ptr from by simp [addPtrEntry, hcn], ih ptr]
      cases hp : assocFind ptr rev <;> simp [hp, hcn]
    · cases hpv : assocFind ptr (reverseaddr h.ip) with
      | some v0 =>
        rw [show addPtrEntry ptr name h = ptr from by simp [addPtrEntry, hcn, hpv], ih ptr]
        cases hp : assocFind ptr rev with
        | some v => simp [hp]
        | none =>
          by_cases hre : reverseaddr h.ip = rev
          · rw [hre] at hpv
            rw [hpv] at hp
            cases hp
          · simp [hp, hcn, hre, beq_iff_eq]
      | none =>
        rw [show addPtrEntry ptr name h = assocSet ptr (reverseaddr h.ip) name from by
              simp [addPtrEntry, hcn, hpv],
          ih (assocSet ptr (reverseaddr h.ip) name), assocFind_assocSet]
        by_cases hre : reverseaddr h.ip = rev
        · rw [if_pos hre]
          rw [hre] at hpv
          rw [hpv]
          simp [hcn, hre]
        · rw [if_neg hre]
          cases hp : assocFind ptr rev <;> simp [hp, hcn, hre, beq_iff_eq]

theorem buildPtrFrom_find (entries : Store) (ptr : List (String × String)) (rev : String) :
    assocFind (buildPtrFrom ptr entries) rev =
      match assocFind ptr rev with
      | some v => some v
      | none => firstPtrOwner entries rev := by
  induction entries generalizing ptr with
  | nil => cases hp : assocFind ptr rev <;> simp [buildPtrFrom, firstPtrOwner, hp]
  | cons kv rest ih =>
    obtain ⟨name, hs⟩ := kv
    show assocFind (buildPtrFrom (hs.foldl (fun a h => addPtrEntry a name h) ptr) rest) rev = _
    rw [ih, addPtr_fold_find]
    cases hp : assocFind ptr rev with
    | some v => simp
    | none =>
      simp only [firstPtrOwner]
      by_cases hany : hs.any (fun h => !h.IsCName && (reverseaddr h.ip == rev)) = true
      · simp [hany]
      · simp [hany]

/-- C10: during Reverse-Lookup Index construction a reverse name already
present in the index is never overwritten — resuming construction from any
partial index preserves every existing binding — and the owner finally
recorded for each reverse name is the first forward name encountered during
iteration whose address entry synthesizes that reverse name. -/
theorem c10_reverse_index_first_wins :
    (∀ (ptr : List (String × String)) (entries : Store) (rev : String),
        (assocFind ptr rev).isSome = true →
        assocFind (buildPtrFrom ptr entries) rev = assocFind ptr rev) ∧
    (∀ (entries : Store) (rev : String),
        assocFind (buildPtrRecords entries) rev = firstPtrOwner entries rev) := by
  constructor
  · intro ptr entries rev hsome
    rw [buildPtrFrom_find]
    cases hp : assocFind ptr rev with
    | some v => simp
    | none => rw [hp] at hsome; simp at hsome
  · intro entries rev
    rw [buildPtrRecords, buildPtrFrom_find]
    simp [assocFind]

/-- Witness for C10: a pre-existing binding survives construction over an
entry list that maps the same address to a different owner. -/
theorem c10_reverse_index_first_wins_witness :
    (assocFind [("4.3.2.1.in-addr.arpa.", "a.")] "4.3.2.1.in-addr.arpa.").isSome = true ∧
    assocFind
        (buildPtrFrom [("4.3.2.1.in-addr.arpa.", "a.")]
          [("c.", [⟨some (.v4 1 2 3 4), ""⟩])])
        "4.3.2.1.in-addr.arpa." = some "a." := by
  constructor
  · rfl
  · exact (c10_reverse_index_first_wins.1 [("4.3.2.1.in-addr.arpa.", "a.")]
      [("c.", [⟨some (.v4 1 2 3 4), ""⟩])] "4.3.2.1.in-addr.arpa." rfl).trans rfl

/-! ## Claim C9: the DoH request -/

theorem b64Char_ne_pad (n : Nat) : b64Char n ≠ '=' := by
  by_cases h : n < 64
  · have hall : ∀ m, m < 64 → b64Char m ≠ '=' := by decide
    exact hall n h
  · rw [b64Char, List.getD_eq_default]
    · decide
    · have : b64UrlAlphabet.length = 64 := by decide
      omega

theorem base64RawUrl_no_pad : ∀ bs : List Nat, ∀ c ∈ base64RawUrlChars bs, c ≠ '='
  | [] => by simp [base64RawUrlChars]
  | [b1] => by
    intro c hc
    simp only [base64RawUrlChars, List.mem_cons, List.not_mem_nil, or_false] at hc
    rcases hc with rfl | rfl <;> exact b64Char_ne_pad _
  | [b1, b2] => by
    intro c hc
    simp only [base64RawUrlChars, List.mem_cons, List.not_mem_nil, or_false] at hc
    rcases hc with rfl | rfl | rfl <;> exact b64Char_ne_pad _
  | b1 :: b2 :: b3 :: rest => by
    intro c hc
    simp only [base64RawUrlChars, List.mem_cons] at hc
    rcases hc with rfl | rfl | rfl | rfl | hc
    · exact b64Char_ne_pad _
    · exact b64Char_ne_pad _
    · exact b64Char_ne_pad _
    · exact b64Char_ne_pad _
    · exact base64RawUrl_no_pad rest c hc

/-- The inverse of the encoder, used to validate it: map each character back
to its 6-bit value and repack the bytes. -/
def b64Val (c : Char) : Nat := List.findIdx (fun x => x == c) b64UrlAlphabet

def base64RawUrlDecode : List Char → List Nat
  | [] => []
  | [_] => []
  | [c1, c2] => [b64Val c1 * 4 + b64Val c2 / 16]
  | [c1, c2, c3] => [b64Val c1 * 4 + b64Val c2 / 16, b64Val c2 % 16 * 16 + b64Val c3 / 4]
  | c1 :: c2 :: c3 :: c4 :: rest =>
    (b64Val c1 * 4 + b64Val c2 / 16) :: (b64Val c2 % 16 * 16 + b64Val c3 / 4) ::
      (b64Val c3 % 4 * 64 + b64Val c4) :: base64RawUrlDecode rest

theorem b64Val_b64Char : ∀ n, n < 64 → b64Val (b64Char n) = n := by decide

/-- The encoder is injective on byte lists: decoding recovers the input. -/
theorem base64RawUrl_roundtrip : ∀ bs : List Nat, (∀ b ∈ bs, b < 256) →
    base64RawUrlDecode (base64RawUrlChars bs) = bs
  | [] , _ => rfl
  | [b1], h => by
    have hb1 : b1 < 256 := h b1 (by simp)
    simp only [base64RawUrlChars, base64RawUrlDecode]
    rw [b64Val_b64Char _ (by omega), b64Val_b64Char _ (by omega)]
    congr 1
    omega
  | [b1, b2], h => by
    have hb1 : b1 < 256 := h b1 (by simp)
    have hb2 : b2 < 256 := h b2 (by simp)
    simp only [base64RawUrlChars, base64RawUrlDecode]
    rw [b64Val_b64Char _ (by omega), b64Val_b64Char _ (by omega), b64Val_b64Char _ (by omega)]
    congr 1
    · omega
    · congr 1
      omega
  | b1 :: b2 :: b3 :: rest, h => by
    have hb1 : b1 < 256 := h b1 (by simp)
    have hb2 : b2 < 256 := h b2 (by simp)
    have hb3 : b3 < 256 := h b3 (by simp)
    have hrest : ∀ b ∈ rest, b < 256 := fun b hb => h b (by simp [hb])
    simp only [base64RawUrlChars, base64RawUrlDecode]
    rw [b64Val_b64Char _ (by omega), b64Val_b64Char _ (by omega), b64Val_b64Char _ (by omega),
      b64Val_b64Char _ (by omega)]
    rw [base64RawUrl_roundtrip rest hrest]
    congr 1
    · omega
    · congr 1
      · omega
      · congr 1
        omega

/-- C9: the DoH upstream request is an HTTP GET against the configured base
URL whose query string is `dns=` followed by the unpadded base64url encoding
of the packed wire message, and it carries `Accept: application/dns-message`,
an empty User-Agent, and both X-Forwarded-For and X-Real-IP bound to the
originating client's address. -/
theorem c9_doh_request (baseUrl : String) (packed : List Nat) (clientIP : String) :
    (exchangeHttpRequest baseUrl packed clientIP).method = "GET" ∧
    (exchangeHttpRequest baseUrl packed clientIP).urlBase = baseUrl ∧
    (exchangeHttpRequest baseUrl packed clientIP).rawQuery =
      "dns=" ++ base64RawUrl packed ∧
    (∀ c ∈ (base64RawUrl packed).toList, c ≠ '=') ∧
    headerGet (exchangeHttpRequest baseUrl packed clientIP).headers "Accept" =
      some "application/dns-message" ∧
    headerGet (exchangeHttpRequest baseUrl packed clientIP).headers "User-Agent" = some "" ∧
    headerGet (exchangeHttpRequest baseUrl packed clientIP).headers "X-Forwarded-For" =
      some clientIP ∧
    headerGet (exchangeHttpRequest baseUrl packed clientIP).headers "X-Real-IP" =
      some clientIP := by
  refine ⟨rfl, rfl, rfl, ?_, rfl, rfl, rfl, rfl⟩
  exact base64RawUrl_no_pad packed

/-! ## Claim C7: merging hosts files -/

/-- The entries a single hosts line contributes to a given owner name
(one copy of the line's `HostInfo` per occurrence of the name). -/
def lineContrib (parseIP : String → Option IP) (line : String) (name : String) :
    List HostInfo :=
  if line = "" ∨ startsWithChar line '#' then []
  else
    match goFields (dropComment line) with
    | [] => []
    | [_] => []
    | destField :: hosts =>
      match destHostInfo parseIP destField with
      | none => []
      | some hostInfo => (hosts.filter (fun h => h ++ "." == name)).map (fun _ => hostInfo)

theorem storeFor_assocSet (l : Store) (k name : String) (v : List HostInfo) :
    storeFor (assocSet l k v) name = if k = name then v else storeFor l name := by
  unfold storeFor
  rw [assocFind_assocSet]
  split <;> rfl

theorem hostsFold_find (hosts : List String) (hi : HostInfo) (recs : Store) (name : String) :
    storeFor (hosts.foldl (fun recs host =>
        assocSet recs (host ++ ".") ((assocFind recs (host ++ ".")).getD [] ++ [hi])) recs)
        name =
      storeFor recs name ++ (hosts.filter (fun h => h ++ "." == name)).map (fun _ => hi) := by
  induction hosts generalizing recs with
  | nil => simp
  | cons h t ih =>
    rw [List.foldl_cons, ih]
    by_cases he : h ++ "." = name
    · have hstep : storeFor
          (assocSet recs (h ++ ".") ((assocFind recs (h ++ ".")).getD [] ++ [hi])) name =
          storeFor recs name ++ [hi] := by
        rw [storeFor_assocSet, if_pos he, he]
        rfl
      rw [hstep]
      simp [List.filter_cons, he, List.append_assoc]
    · have hstep : storeFor
          (assocSet recs (h ++ ".") ((assocFind recs (h ++ ".")).getD [] ++ [hi])) name =
          storeFor recs name := by
        rw [storeFor_assocSet, if_neg he]
      rw [hstep]
      simp [List.filter_cons, he]

theorem parseHostsLine_find (pip : String → Option IP) (recs : Store) (line name : String) :
    storeFor (parseHostsLine pip recs line) name =
      storeFor recs name ++ lineContrib pip line name := by
  unfold parseHostsLine lineContrib
  by_cases h0 : line = "" ∨ startsWithChar line '#' = true
  · simp [h0]
  · simp only [h0, if_false]
    cases hf : goFields (dropComment line) with
    | nil => simp
    | cons dest hosts =>
      cases hosts with
      | nil => simp
      | cons h1 hs =>
        cases hd : destHostInfo pip dest with
        | none => simp [hd]
        | some hi =>
          simp only [hd]
          exact hostsFold_find (h1 :: hs) hi recs name

theorem parse_find (pip : String → Option IP) (lines : List String) (name : String) :
    storeFor (parseHostsScanner pip lines) name =
      (lines.map (fun l => lineContrib pip l name)).flatten := by
  have h : ∀ recs, storeFor (lines.foldl (parseHostsLine pip) recs) name =
      storeFor recs name ++ (lines.map (fun l => lineContrib pip l name)).flatten := by
    induction lines with
    | nil => intro recs; simp
    | cons l rest ih =>
      intro recs
      rw [List.foldl_cons, ih, parseHostsLine_find]
      simp [List.append_assoc]
  have h2 := h []
  rw [parseHostsScanner]
  rw [h2]
  rfl

theorem parse_append_find (pip : String → Option IP) (A B : List String) (name : String) :
    storeFor (parseHostsScanner pip (A ++ B)) name =
      storeFor (parseHostsScanner pip A) name ++ storeFor (parseHostsScanner pip B) name := by
  simp [parse_find, List.map_append, List.flatten_append]

theorem parse_join_find (pip : String → Option IP) (files : List (List String)) (name : String) :
    storeFor (parseHostsScanner pip files.flatten) name =
      (files.map (fun f => storeFor (parseHostsScanner pip f) name)).flatten := by
  induction files with
  | nil => simp [parse_find]
  | cons f rest ih => simp [List.flatten_cons, parse_append_find, ih]

theorem mem_keys_assocSet {α β : Type} [DecidableEq α] (l : List (α × β)) (k a : α) (v : β) :
    a ∈ (assocSet l k v).map Prod.fst ↔ a ∈ l.map Prod.fst ∨ a = k := by
  induction l with
  | nil => simp [assocSet]
  | cons hd tl ih =>
    obtain ⟨k0, v0⟩ := hd
    by_cases h : k0 = k
    · subst h
      simp [assocSet]
      tauto
    · simp [assocSet, h, ih]
      tauto

theorem assocSet_nodup {α β : Type} [DecidableEq α] (l : List (α × β)) (k : α) (v : β)
    (h : (l.map Prod.fst).Nodup) : ((assocSet l k v).map Prod.fst).Nodup := by
  induction l with
  | nil => simp [assocSet]
  | cons hd tl ih =>
    obtain ⟨k0, v0⟩ := hd
    simp only [List.map_cons, List.nodup_cons] at h
    rw [assocSet]
    by_cases hk : k0 = k
    · rw [if_pos hk]
      simp only [List.map_cons, List.nodup_cons]
      exact ⟨hk ▸ h.1, h.2⟩
    · rw [if_neg hk]
      simp only [List.map_cons, List.nodup_cons]
      refine ⟨?_, ih h.2⟩
      rw [mem_keys_assocSet]
      rintro (hmem | rfl)
      · exact h.1 hmem
      · exact hk rfl

theorem assocFind_eq_none {α β : Type} [DecidableEq α] (l : List (α × β)) (a : α)
    (h : a ∉ l.map Prod.fst) : assocFind l a = none := by
  induction l with
  | nil => rfl
  | cons hd tl ih =>
    obtain ⟨k0, v0⟩ := hd
    simp only [List.map_cons, List.mem_cons, not_or] at h
    rw [assocFind, if_neg (fun he => h.1 he.symm)]
    exact ih h.2

theorem foldSet_nodup (hosts : List String) (hi : HostInfo) (recs : Store)
    (h : (recs.map Prod.fst).Nodup) :
    ((hosts.foldl (fun recs host =>
        assocSet recs (host ++ ".") ((assocFind recs (host ++ ".")).getD [] ++ [hi])) recs).map
        Prod.fst).Nodup := by
  induction hosts generalizing recs with
  | nil => exact h
  | cons h0 t ih => exact ih _ (assocSet_nodup _ _ _ h)

theorem parseHostsLine_nodup (pip : String → Option IP) (recs : Store) (line : String)
    (h : (recs.map Prod.fst).Nodup) :
    ((parseHostsLine pip recs line).map Prod.fst).Nodup := by
  unfold parseHostsLine
  by_cases h0 : line = "" ∨ startsWithChar line '#' = true
  · simp only [h0, if_true]
    exact h
  · simp only [h0, if_false]
    cases hf : goFields (dropComment line) with
    | nil => simpa using h
    | cons dest hosts =>
      cases hosts with
      | nil => simpa using h
      | cons h1 hs =>
        cases hd : destHostInfo pip dest with
        | none => simpa [hd] using h
        | some hi =>
          simp only [hd]
          exact foldSet_nodup (h1 :: hs) hi recs h

theorem parse_nodup (pip : String → Option IP) (lines : List String) :
    ((parseHostsScanner pip lines).map Prod.fst).Nodup := by
  have h : ∀ recs : Store, (recs.map Prod.fst).Nodup →
      ((lines.foldl (parseHostsLine pip) recs).map Prod.fst).Nodup := by
    induction lines with
    | nil => exact fun recs h => h
    | cons l rest ih => exact fun recs h => ih _ (parseHostsLine_nodup pip recs l h)
  exact h [] (by simp)

theorem mergeStore_find (st parsed : Store) (name : String)
    (h : (parsed.map Prod.fst).Nodup) :
    assocFind (mergeStore st parsed) name =
      match assocFind parsed name with
      | some v => some v
      | none => assocFind st name := by
  induction parsed generalizing st with
  | nil => cases hp : assocFind st name <;> simp [mergeStore, assocFind, hp]
  | cons hd tl ih =>
    obtain ⟨k0, v0⟩ := hd
    simp only [List.map_cons, List.nodup_cons] at h
    show assocFind (mergeStore (assocSet st k0 v0) tl) name = _
    rw [ih (assocSet st k0 v0) h.2]
    by_cases hk : k0 = name
    · subst hk
      rw [assocFind_eq_none tl k0 h.1]
      simp [assocFind, assocFind_assocSet]
    · cases hp : assocFind tl name with
      | some v => simp [assocFind, hk, hp]
      | none => simp [assocFind, hk, hp, assocFind_assocSet]

theorem flatten_all_nil {α : Type} (l : List (List α)) (h : ∀ x ∈ l, x = []) :
    l.flatten = [] := by
  induction l with
  | nil => rfl
  | cons x rest ih =>
    rw [List.flatten_cons, h x (by simp), ih (fun y hy => h y (by simp [hy]))]
    rfl

/-- C7 (amended): loading hosts files one by one agrees with parsing the
concatenation of all their lines whenever no owner name is produced by two
different files; `main`'s merge replaces each name's whole entry list with
the latest file's list, so names duplicated across files take only the last
file's entries rather than the concatenation of all of them. -/
theorem c7_split_disjoint (pip : String → Option IP) (files : List (List String))
    (name : String)
    (hdisj : files.Pairwise (fun f g => ∀ n,
      (assocFind (parseHostsScanner pip f) n).isSome = true →
      (assocFind (parseHostsScanner pip g) n).isSome = true → False)) :
    storeFor (loadHostsFiles pip files) name =
      storeFor (parseHostsScanner pip files.flatten) name := by
  induction files using List.reverseRecOn with
  | nil => rfl
  | append_singleton init lastf ih =>
    rw [List.pairwise_append] at hdisj
    have hinit := hdisj.1
    have hcross := hdisj.2.2
    have hload : loadHostsFiles pip (init ++ [lastf]) =
        mergeStore (loadHostsFiles pip init) (parseHostsScanner pip lastf) := by
      rw [loadHostsFiles, List.foldl_append]
      rfl
    rw [hload]
    have hm := mergeStore_find (loadHostsFiles pip init) (parseHostsScanner pip lastf) name
      (parse_nodup pip lastf)
    have hjoin : storeFor (parseHostsScanner pip (init ++ [lastf]).flatten) name =
        storeFor (parseHostsScanner pip init.flatten) name ++
          storeFor (parseHostsScanner pip lastf) name := by
      rw [List.flatten_append]
      simp [parse_append_find, parse_find]
    cases hp : assocFind (parseHostsScanner pip lastf) name with
    | some v =>
      have hL : storeFor (mergeStore (loadHostsFiles pip init) (parseHostsScanner pip lastf))
          name = v := by
        unfold storeFor
        rw [hm, hp]
        rfl
      have hinitnil : storeFor (parseHostsScanner pip init.flatten) name = [] := by
        rw [parse_join_find]
        apply flatten_all_nil
        intro x hx
        simp only [List.mem_map] at hx
        obtain ⟨f, hf, rfl⟩ := hx
        have hnone : assocFind (parseHostsScanner pip f) name = none := by
          cases hq : assocFind (parseHostsScanner pip f) name with
          | none => rfl
          | some w =>
            exact absurd (hcross f hf lastf (by simp) name (by rw [hq]; rfl)
              (by rw [hp]; rfl)) (fun hcon => hcon)
        rw [storeFor, hnone]
        rfl
      have hlastv : storeFor (parseHostsScanner pip lastf) name = v := by
        rw [storeFor, hp]
        rfl
      rw [hL, hjoin, hinitnil, hlastv, List.nil_append]
    | none =>
      have hL : storeFor (mergeStore (loadHostsFiles pip init) (parseHostsScanner pip lastf))
          name = storeFor (loadHostsFiles pip init) name := by
        unfold storeFor
        rw [hm, hp]
      have hlastnil : storeFor (parseHostsScanner pip lastf) name = [] := by
        rw [storeFor, hp]
        rfl
      rw [hL, hjoin, hlastnil, List.append_nil]
      exact ih hinit

/-- The two-file split used by the C7 counterexample and witness. -/
def filesDup : List (List String) := [["1.2.3.4 h"], ["5.6.7.8 h"]]

/-- C7 counterexample: splitting two lines that share the owner name `h`
across two files yields a different mapping than one concatenated file —
`main`'s merge keeps only the second file's entry list for `h.`, while the
single file accumulates both. -/
theorem c7_counterexample :
    storeFor (loadHostsFiles parseIPv4 filesDup) "h." = [⟨some (.v4 5 6 7 8), ""⟩] ∧
    storeFor (parseHostsScanner parseIPv4 filesDup.flatten) "h." =
      [⟨some (.v4 1 2 3 4), ""⟩, ⟨some (.v4 5 6 7 8), ""⟩] ∧
    storeFor (loadHostsFiles parseIPv4 filesDup) "h." ≠
      storeFor (parseHostsScanner parseIPv4 filesDup.flatten) "h." := by
  refine ⟨?_, ?_, ?_⟩ <;> decide

/-- Witness for C7 on two files with disjoint owner names. -/
theorem c7_split_disjoint_witness :
    storeFor (loadHostsFiles parseIPv4 [["1.2.3.4 a"], ["5.6.7.8 b"]]) "a." =
      storeFor (parseHostsScanner parseIPv4 [["1.2.3.4 a"], ["5.6.7.8 b"]].flatten) "a." := by
  apply c7_split_disjoint
  constructor
  · intro g hg
    rcases List.mem_singleton.mp hg with rfl
    intro n h1 h2
    rcases eq_or_ne "a." n with h | h
    · rw [← h] at h2
      exact absurd h2 (by decide)
    · rw [show assocFind (parseHostsScanner parseIPv4 ["1.2.3.4 a"]) n =
          assocFind [("a.", [⟨some (.v4 1 2 3 4), ""⟩])] n from by rfl] at h1
      rw [assocFind, if_neg h] at h1
      simp [assocFind] at h1
  · simp

end SDP
